import Mathlib

/-!
Verification of the CHIP-8 interpreter core (src/lib.rs of TAugustL/CHIP-8).

The interpreter state `Chip8Context` and the functions below are a shallow
embedding of the Rust source: machine integers become `Nat` with explicit
`% 2^w` where the source's wrapping matters, array indexing that can panic
becomes `Except String`, and the SDL renderer / audio device (out of the
core's scope) are dropped — the display is kept as the `display` bitmap,
which the source keeps in lockstep with the renderer's point list.

Wrapping choices: Rust release builds wrap `u8`/`u16` arithmetic, so
`-=` on `u8` is modelled as `(a + 256 - b) % 256` and `u16` additions as
`% 65536`; index-out-of-bounds and `Option::unwrap` panics are modelled
as `Except.error`.
-/

namespace Chip8

/-- Display model: `d y x` is the pixel at row `y`, column `x`
(source: `display: [[bool; 64]; 32]`, indexed `display[y][x]`). -/
abbrev Display : Type := Nat → Nat → Bool

/-- Source: `pub const TARGET_IPS: u32 = 700;` -/
def TARGET_IPS : Nat := 700

/-- Source: `const FONT_OFFSET: usize = 0x050;` -/
def FONT_OFFSET : Nat := 0x050

/-- Source: `const INSTR_OFFSET: usize = 0x200;` -/
def INSTR_OFFSET : Nat := 0x200

/-- Source: `const FONT: [u8; 80]`. -/
def FONT : List Nat :=
  [0xF0, 0x90, 0x90, 0x90, 0xF0,
   0x20, 0x60, 0x20, 0x20, 0x70,
   0xF0, 0x10, 0xF0, 0x80, 0xF0,
   0xF0, 0x10, 0xF0, 0x10, 0xF0,
   0x90, 0x90, 0xF0, 0x10, 0x10,
   0xF0, 0x80, 0xF0, 0x10, 0xF0,
   0xF0, 0x80, 0xF0, 0x90, 0xF0,
   0xF0, 0x10, 0x20, 0x40, 0x40,
   0xF0, 0x90, 0xF0, 0x90, 0xF0,
   0xF0, 0x90, 0xF0, 0x10, 0xF0,
   0xF0, 0x90, 0xF0, 0x90, 0x90,
   0xE0, 0x90, 0xE0, 0x90, 0xE0,
   0xF0, 0x80, 0x80, 0x80, 0xF0,
   0xE0, 0x90, 0x90, 0x90, 0xE0,
   0xF0, 0x80, 0xF0, 0x80, 0xF0,
   0xF0, 0x80, 0xF0, 0x80, 0x80]

/-- Pointwise update of a `Nat`-indexed store (an array write `a[k] = v`). -/
def updf (f : Nat → Nat) (k v : Nat) : Nat → Nat :=
  fun j => if j = k then v else f j

/-- Source: `const fn bit_i(byte: u16, i: u16) -> u8` — the i-th nibble
from the top of a 16-bit opcode. -/
def bit_i (b i : Nat) : Nat := (b >>> (12 - i * 4)) &&& 0xF

/-- Source: `struct DTimer { time: u32 }`. -/
structure DTimer where
  time : Nat
deriving DecidableEq

/-- Source: `DTimer::update` — `if self.time > 0 { self.time -= 1; }`. -/
def DTimer.update (t : DTimer) : DTimer :=
  if t.time > 0 then ⟨t.time - 1⟩ else t

/-- Source: `Chip8Context::start_delay` — the stored counter value
`duration * (TARGET_IPS / 60)` (u32 arithmetic, no overflow for u8
durations). -/
def start_delay (duration : Nat) : Nat := duration * (TARGET_IPS / 60)

/-- Source: `Chip8Context::start_sound` — same scaling as `start_delay`. -/
def start_sound (duration : Nat) : Nat := duration * (TARGET_IPS / 60)

/-- The interpreter state (source: `pub struct Chip8Context`), minus the
renderer and the audio device, which the core only drives one-way.
`sound_timer` keeps only the counter of `STimer`. -/
structure Chip8Context where
  memory : Nat → Nat
  display : Display
  program_counter : Nat
  i : Nat
  stack : List Nat
  delay_timer : DTimer
  sound_timer : Nat
  register : Nat → Nat
  keypad : Nat → Bool

/-- Source: `read_pixel_at(x, y)` — `self.display[y][x]`. -/
def read_pixel_at (d : Display) (x y : Nat) : Bool := d y x

/-- Source: `draw_pixel_at(x, y)` — sets `display[y][x] = true` (the
renderer push always succeeds in the model). -/
def draw_pixel_at (d : Display) (x y : Nat) : Display :=
  fun yy xx => if yy = y ∧ xx = x then true else d yy xx

/-- Source: `remove_pixel_at(x, y)` — sets `display[y][x] = false`; the
point list search always finds the point because the source keeps
`to_be_rendered` in lockstep with `display`. -/
def remove_pixel_at (d : Display) (x y : Nat) : Display :=
  fun yy xx => if yy = y ∧ xx = x then false else d yy xx

/-- A bounds-checked byte read, `self.memory[addr]`: Rust indexing panics
outside `0..4096`. -/
def memRead (mem : Nat → Nat) (addr : Nat) : Except String Nat :=
  if addr < 4096 then .ok (mem addr) else .error "memory index out of bounds"

/-- Source: `get_mem_region(start, end)` — `self.memory[start..end].to_vec()`;
a Rust slice panics unless `start <= end && end <= 4096`. -/
def get_mem_region (mem : Nat → Nat) (start stop : Nat) : Except String (List Nat) :=
  if start ≤ stop ∧ stop ≤ 4096 then
    .ok ((List.range (stop - start)).map (fun k => mem (start + k)))
  else .error "memory slice out of bounds"

/-- The inner loop of the draw instruction, `for bit in 0..8` over the
remaining bit indices (called with `List.range 8`): `if x + bit >= 64 break`,
then XOR the sprite bit `(byte >> (8 - bit - 1)) & 1` into the pixel at
`(x + bit, y)`, recording a collision when a lit pixel is unlit. -/
def drawBitsList (d : Display) (x y b : Nat) : List Nat → Display × Bool
  | [] => (d, false)
  | bit :: rest =>
    if x + bit < 64 then
      if (b >>> (8 - bit - 1)) &&& 1 = 1 then
        if read_pixel_at d (x + bit) y then
          ((drawBitsList (remove_pixel_at d (x + bit) y) x y b rest).1, true)
        else
          drawBitsList (draw_pixel_at d (x + bit) y) x y b rest
      else
        drawBitsList d x y b rest
    else (d, false)

/-- The outer loop of the draw instruction: one byte per row starting at
row `y`, with `if curr_y >= 32 return` (hard vertical clip). Returns the
new display and the collision flag accumulated by the loop. -/
def drawSprite (d : Display) (x : Nat) (bytes : List Nat) (y : Nat) : Display × Bool :=
  match bytes with
  | [] => (d, false)
  | byte :: rest =>
    if y < 32 then
      let r := drawBitsList d x y byte (List.range 8)
      let s := drawSprite r.1 x rest (y + 1)
      (s.1, r.2 || s.2)
    else (d, false)

/-- The Fx55 store loop body over `0..=vx`: writes `register[k]` to
`memory[(i + k) as u16 as usize]` (u16 address add), with the indexing
panic modelled as an error. -/
def storeRegsAux (reg : Nat → Nat) (base : Nat) : List Nat → (Nat → Nat) → Except String (Nat → Nat)
  | [], mem => .ok mem
  | k :: ks, mem =>
    if (base + k) % 65536 < 4096 then
      storeRegsAux reg base ks (updf mem ((base + k) % 65536) (reg k))
    else .error "memory index out of bounds"

/-- The Fx65 load loop body over `0..=vx`: reads `memory[(i + k) as u16 as
usize]` into `register[k]`. -/
def loadRegsAux (mem : Nat → Nat) (base : Nat) : List Nat → (Nat → Nat) → Except String (Nat → Nat)
  | [], reg => .ok reg
  | k :: ks, reg =>
    if (base + k) % 65536 < 4096 then
      loadRegsAux mem base ks (updf reg k (mem ((base + k) % 65536)))
    else .error "memory index out of bounds"

/-- Source: `Chip8Context::decode_instruction(opcode)`; `rand` supplies the
byte the source draws from `self.random_device.gen_range(0x0..0xFF)` for
the Cxnn instruction (the model takes the generator's output as an input,
reduced into the generator's `0..0xFF` range). The default build features
are embedded: `alt_shift`, `alt_jump` and `alt_store_load` are off. -/
def decode (ctx : Chip8Context) (opcode : Nat) (rand : Nat) : Except String Chip8Context :=
  match bit_i opcode 0 with
  | 0x0 =>
    -- CLEAR SCREEN / RETURN FROM SUBROUTINE
    if opcode &&& 0xFFF = 0x0E0 then
      .ok { ctx with display := fun _ _ => false }
    else if opcode &&& 0xFFF = 0x0EE then
      match ctx.stack with
      | [] => .error "stack pop on empty stack"
      | p :: rest => .ok { ctx with program_counter := p, stack := rest }
    else .ok ctx
  | 0x1 =>
    -- JUMP
    .ok { ctx with program_counter := opcode &&& 0xFFF }
  | 0x2 =>
    -- SUBROUTINE
    .ok { ctx with stack := ctx.program_counter :: ctx.stack, program_counter := opcode &&& 0xFFF }
  | 0x3 =>
    -- SKIP IF VX == NN
    if ctx.register (bit_i opcode 1) = opcode &&& 0xFF then
      .ok { ctx with program_counter := ctx.program_counter + 2 }
    else .ok ctx
  | 0x4 =>
    -- SKIP IF VX != NN
    if ctx.register (bit_i opcode 1) ≠ opcode &&& 0xFF then
      .ok { ctx with program_counter := ctx.program_counter + 2 }
    else .ok ctx
  | 0x5 =>
    -- SKIP IF VX == VY
    if ctx.register (bit_i opcode 1) = ctx.register (bit_i opcode 2) then
      .ok { ctx with program_counter := ctx.program_counter + 2 }
    else .ok ctx
  | 0x6 =>
    -- SET REGISTER
    .ok { ctx with register := updf ctx.register (bit_i opcode 1) (opcode &&& 0xFF) }
  | 0x7 =>
    -- ADD TO REGISTER
    let v := (ctx.register (bit_i opcode 1) + (opcode &&& 0xFF)) % 256
    .ok { ctx with register := updf ctx.register (bit_i opcode 1) v }
  | 0x8 =>
    match opcode &&& 0xF with
    | 0x0 =>
      -- SET
      .ok { ctx with register := updf ctx.register (bit_i opcode 1) (ctx.register (bit_i opcode 2)) }
    | 0x1 =>
      -- BINARY OR
      let v := ctx.register (bit_i opcode 1) ||| ctx.register (bit_i opcode 2)
      .ok { ctx with register := updf ctx.register (bit_i opcode 1) v }
    | 0x2 =>
      -- BINARY AND
      let v := ctx.register (bit_i opcode 1) &&& ctx.register (bit_i opcode 2)
      .ok { ctx with register := updf ctx.register (bit_i opcode 1) v }
    | 0x3 =>
      -- LOGICAL XOR
      let v := ctx.register (bit_i opcode 1) ^^^ ctx.register (bit_i opcode 2)
      .ok { ctx with register := updf ctx.register (bit_i opcode 1) v }
    | 0x4 =>
      -- ADD: the carry flag is written first, then the sum is recomputed
      -- from the registers (re-reading them after the flag write).
      if ctx.register (bit_i opcode 1) + ctx.register (bit_i opcode 2) > 255 then
        let r1 := updf ctx.register 0xF 1
        .ok { ctx with register := updf r1 (bit_i opcode 1) ((r1 (bit_i opcode 1) + r1 (bit_i opcode 2)) % 256) }
      else
        let r1 := updf ctx.register 0xF 0
        .ok { ctx with register := updf r1 (bit_i opcode 1) (r1 (bit_i opcode 1) + r1 (bit_i opcode 2)) }
    | 0x5 =>
      -- SUBTRACT Y FROM X: flag first, then `register[vx] -= register[vy]`
      -- (u8 subtraction, wrapping in release builds).
      let f := if ctx.register (bit_i opcode 1) > ctx.register (bit_i opcode 2) then 1 else 0
      let r1 := updf ctx.register 0xF f
      .ok { ctx with register := updf r1 (bit_i opcode 1) ((r1 (bit_i opcode 1) + 256 - r1 (bit_i opcode 2)) % 256) }
    | 0x7 =>
      -- SUBTRACT X FROM Y: flag first, then `register[vx] = register[vy] - register[vx]`.
      let f := if ctx.register (bit_i opcode 2) > ctx.register (bit_i opcode 1) then 1 else 0
      let r1 := updf ctx.register 0xF f
      .ok { ctx with register := updf r1 (bit_i opcode 1) ((r1 (bit_i opcode 2) + 256 - r1 (bit_i opcode 1)) % 256) }
    | 0x6 =>
      -- SHIFT RIGHT: data write to vx, then the flag write to VF.
      let entry := ctx.register (bit_i opcode 1)
      .ok { ctx with register := updf (updf ctx.register (bit_i opcode 1) (entry >>> 1)) 0xF (entry &&& 0x1) }
    | 0xE =>
      -- SHIFT LEFT: data write to vx (u8, wraps mod 256), then the flag write.
      let entry := ctx.register (bit_i opcode 1)
      .ok { ctx with register := updf (updf ctx.register (bit_i opcode 1) ((entry * 2) % 256)) 0xF ((entry &&& 0x80) >>> 7) }
    | _ => .ok ctx
  | 0x9 =>
    -- SKIP IF VX != VY
    if ctx.register (bit_i opcode 1) ≠ ctx.register (bit_i opcode 2) then
      .ok { ctx with program_counter := ctx.program_counter + 2 }
    else .ok ctx
  | 0xA =>
    -- SET INDEX REGISTER
    .ok { ctx with i := opcode &&& 0xFFF }
  | 0xB =>
    -- JUMP WITH OFFSET (default variant: offset from register V0; u16 add)
    .ok { ctx with program_counter := ((opcode &&& 0xFFF) + ctx.register 0) % 65536 }
  | 0xC =>
    -- RANDOM: `gen_range(0x0..0xFF) & nn`
    .ok { ctx with register := updf ctx.register (bit_i opcode 1) ((rand % 0xFF) &&& (opcode &&& 0xFF)) }
  | 0xD =>
    -- DISPLAY/DRAW
    match get_mem_region ctx.memory ctx.i ((ctx.i + (opcode &&& 0xF)) % 65536) with
    | .error e => .error e
    | .ok bytes =>
      let res := drawSprite ctx.display (ctx.register (bit_i opcode 1) % 64) bytes
        (ctx.register (bit_i opcode 2) % 32)
      let reg := if res.2 then updf (updf ctx.register 0xF 0) 0xF 1 else updf ctx.register 0xF 0
      .ok { ctx with display := res.1, register := reg }
  | 0xE =>
    match opcode &&& 0xFF with
    | 0x9E =>
      -- SKIP IF PRESSED (`keypad[register[vx] as usize]` panics past 16)
      if ctx.register (bit_i opcode 1) < 16 then
        if ctx.keypad (ctx.register (bit_i opcode 1)) then
          .ok { ctx with program_counter := ctx.program_counter + 2 }
        else .ok ctx
      else .error "keypad index out of bounds"
    | 0xA1 =>
      -- SKIP IF NOT PRESSED
      if ctx.register (bit_i opcode 1) < 16 then
        if ctx.keypad (ctx.register (bit_i opcode 1)) then .ok ctx
        else .ok { ctx with program_counter := ctx.program_counter + 2 }
      else .error "keypad index out of bounds"
    | _ => .ok ctx
  | 0xF =>
    match opcode &&& 0xFF with
    | 0x07 =>
      -- READ DELAY: `register[vx] = delay_timer.time as u8`
      .ok { ctx with register := updf ctx.register (bit_i opcode 1) (ctx.delay_timer.time % 256) }
    | 0x15 =>
      -- START DELAY
      .ok { ctx with delay_timer := ⟨start_delay (ctx.register (bit_i opcode 1))⟩ }
    | 0x18 =>
      -- START SOUND
      .ok { ctx with sound_timer := start_sound (ctx.register (bit_i opcode 1)) }
    | 0x1E =>
      -- ADD TO INDEX: `i += register[vx]` (u16), then flag if `i > 0xFFF`.
      if (ctx.i + ctx.register (bit_i opcode 1)) % 65536 > 0xFFF then
        .ok { ctx with i := (ctx.i + ctx.register (bit_i opcode 1)) % 65536, register := updf ctx.register 0xF 1 }
      else
        .ok { ctx with i := (ctx.i + ctx.register (bit_i opcode 1)) % 65536 }
    | 0x0A =>
      -- GET KEY: rewind the pc when no key is down, else the lowest down key.
      if (List.range 16).all (fun k => !ctx.keypad k) then
        .ok { ctx with program_counter := ctx.program_counter - 2 }
      else
        match (List.range 16).find? (fun k => ctx.keypad k) with
        | some k => .ok { ctx with register := updf ctx.register (bit_i opcode 1) k }
        | none => .ok ctx
    | 0x29 =>
      -- FONT CHAR
      .ok { ctx with i := FONT_OFFSET + 5 * ctx.register (bit_i opcode 1) }
    | 0x33 =>
      -- BINARY CODED DECIMAL CONVERSION: three checked byte writes at i, i+1, i+2.
      if ctx.i < 4096 then
        if ctx.i + 1 < 4096 then
          if ctx.i + 2 < 4096 then
            let val := ctx.register (bit_i opcode 1)
            let m := updf (updf (updf ctx.memory ctx.i (((val / 10) / 10) % 10)) (ctx.i + 1) ((val / 10) % 10)) (ctx.i + 2) (val % 10)
            .ok { ctx with memory := m }
          else .error "memory index out of bounds"
        else .error "memory index out of bounds"
      else .error "memory index out of bounds"
    | 0x55 =>
      -- STORE REGISTERS IN MEMORY (default variant: i is not incremented)
      match storeRegsAux ctx.register ctx.i (List.range (bit_i opcode 1 + 1)) ctx.memory with
      | .ok m => .ok { ctx with memory := m }
      | .error e => .error e
    | 0x65 =>
      -- STORE MEMORY IN REGISTERS (default variant)
      match loadRegsAux ctx.memory ctx.i (List.range (bit_i opcode 1 + 1)) ctx.register with
      | .ok r => .ok { ctx with register := r }
      | .error e => .error e
    | _ => .ok ctx
  | _ => .ok ctx

/-- The fetch of `process_instructions`: the two bytes at the program
counter, big-endian composed. -/
def fetchInstr (ctx : Chip8Context) : Except String Nat :=
  match memRead ctx.memory ctx.program_counter,
        memRead ctx.memory (ctx.program_counter + 1) with
  | .ok b1, .ok b2 => .ok ((b1 <<< 8) + b2)
  | .error e, _ => .error e
  | _, .error e => .error e

/-- Source: `Chip8Context::process_instructions` — fetch, advance the
program counter by 2, decode and execute, then wrap the program counter
back to `INSTR_OFFSET` if it reached the 4096-byte memory bound. -/
def processInstructions (ctx : Chip8Context) (rand : Nat) : Except String Chip8Context :=
  match fetchInstr ctx with
  | .error e => .error e
  | .ok instr =>
    match decode { ctx with program_counter := ctx.program_counter + 2 } instr rand with
    | .error e => .error e
    | .ok c2 =>
      if c2.program_counter ≥ 4096 then .ok { c2 with program_counter := INSTR_OFFSET }
      else .ok c2

/-- Source: `init_memory(program_bytes)` — zeroed 4096-byte store with the
font at `FONT_OFFSET` and the program at `INSTR_OFFSET`. -/
def init_memory (prog : List Nat) : Nat → Nat :=
  fun a =>
    if FONT_OFFSET ≤ a ∧ a < FONT_OFFSET + FONT.length then FONT.getD (a - FONT_OFFSET) 0
    else if INSTR_OFFSET ≤ a ∧ a < INSTR_OFFSET + prog.length then prog.getD (a - INSTR_OFFSET) 0
    else 0

/-- Source: `Chip8Context::new` — fresh interpreter state for a program. -/
def mkContext (prog : List Nat) : Chip8Context :=
  { memory := init_memory prog
    display := fun _ _ => false
    program_counter := INSTR_OFFSET
    i := 0
    stack := []
    delay_timer := ⟨0⟩
    sound_timer := 0
    register := fun _ => 0
    keypad := fun _ => false }

/-- Register `k` after a possibly failed execution (999 on error, an
impossible register value). -/
def regAfter (e : Except String Chip8Context) (k : Nat) : Nat :=
  match e with
  | .ok c => c.register k
  | .error _ => 999

/-- Program counter after a possibly failed execution (999 on error). -/
def pcAfter (e : Except String Chip8Context) : Nat :=
  match e with
  | .ok c => c.program_counter
  | .error _ => 999

/-- Did the execution succeed? -/
def isOkC (e : Except String Chip8Context) : Bool :=
  match e with
  | .ok _ => true
  | .error _ => false

/-- Did the execution fault? -/
def isErrC (e : Except String Chip8Context) : Bool :=
  match e with
  | .ok _ => false
  | .error _ => true

/-- Did a fetch succeed? -/
def isOkF (e : Except String Nat) : Bool :=
  match e with
  | .ok _ => true
  | .error _ => false

/-- Chain one more tick onto a possibly already-failed run. -/
def runStep (e : Except String Chip8Context) (rand : Nat) : Except String Chip8Context :=
  match e with
  | .error msg => .error msg
  | .ok c => processInstructions c rand

/-- Sprite bit `k` of a row byte, as the draw loop extracts it:
`(byte >> (8 - bit - 1)) & 1`. -/
abbrev bitAt (b k : Nat) : Nat := (b >>> (8 - k - 1)) &&& 1

/-- Specification-side description of the columns a draw row touches when
the inner loop runs over bit indices `bit, bit+1, …, bit+n-1` at base
column `x`: column `cx` is touched iff it lies in the loop's range, is
inside the 64-wide screen (hard clip, no wrap), and its sprite bit is 1. -/
abbrev rowTouchesFrom (x b bit n cx : Nat) : Prop :=
  x + bit ≤ cx ∧ cx < x + bit + n ∧ cx < 64 ∧ bitAt b (cx - x) = 1

/-- Specification-side description of the pixels a full sprite draw
touches, written from the spec's words: drawing `bytes` at `(x, y)`
touches `(cx, cy)` iff the row index `cy - y` is a sprite row, `cy` is
inside the 32-tall screen (rows past the bottom are skipped, not
wrapped), and the row touches column `cx`. -/
abbrev spriteTouches (x y : Nat) (bytes : List Nat) (cx cy : Nat) : Prop :=
  y ≤ cy ∧ cy - y < bytes.length ∧ cy < 32 ∧
    rowTouchesFrom x (bytes.getD (cy - y) 0) 0 8 cx

/-- The opcodes that fall through to a `_ => ()` arm of
`decode_instruction` (the code's own instruction table, so every 5xy_
and 9xy_ pattern counts as assigned). -/
def isUnassigned (op : Nat) : Bool :=
  match bit_i op 0 with
  | 0x0 => !(op &&& 0xFFF == 0x0E0) && !(op &&& 0xFFF == 0x0EE)
  | 0x8 =>
    (op &&& 0xF == 0x8) || (op &&& 0xF == 0x9) || (op &&& 0xF == 0xA) ||
    (op &&& 0xF == 0xB) || (op &&& 0xF == 0xC) || (op &&& 0xF == 0xD) ||
    (op &&& 0xF == 0xF)
  | 0xE => !(op &&& 0xFF == 0x9E) && !(op &&& 0xFF == 0xA1)
  | 0xF =>
    !(op &&& 0xFF == 0x07) && !(op &&& 0xFF == 0x15) && !(op &&& 0xFF == 0x18) &&
    !(op &&& 0xFF == 0x1E) && !(op &&& 0xFF == 0x0A) && !(op &&& 0xFF == 0x29) &&
    !(op &&& 0xFF == 0x33) && !(op &&& 0xFF == 0x55) && !(op &&& 0xFF == 0x65)
  | _ => false

/-- The opcodes that write the program counter directly (jump, call,
jump-with-offset, return): the only instructions whose pc effect is not a
shift by an even amount. -/
def directPcInstr (op : Nat) : Bool :=
  (bit_i op 0 == 0x1) || (bit_i op 0 == 0x2) || (bit_i op 0 == 0xB) ||
  ((bit_i op 0 == 0x0) && (op &&& 0xFFF == 0x0EE))

/-- A tick that only fetches: everything but the program counter is
unchanged, the program counter advances by exactly 2 and then wraps to
`INSTR_OFFSET` at the memory bound, and no error is raised. -/
def NopStep (ctx : Chip8Context) (rand : Nat) : Prop :=
  ∃ c2, processInstructions ctx rand = .ok c2 ∧
    c2.memory = ctx.memory ∧ c2.display = ctx.display ∧ c2.register = ctx.register ∧
    c2.i = ctx.i ∧ c2.stack = ctx.stack ∧ c2.delay_timer = ctx.delay_timer ∧
    c2.sound_timer = ctx.sound_timer ∧ c2.keypad = ctx.keypad ∧
    c2.program_counter =
      (if ctx.program_counter + 2 ≥ 4096 then INSTR_OFFSET else ctx.program_counter + 2)

/-- Concrete state for the 8xy4 flag-order counterexample: VF = 200,
V0 = 100, about to execute opcode 8F04 (VF := VF + V0 with carry). -/
def ctxAddVF : Chip8Context :=
  { mkContext [] with register := fun k => if k = 0xF then 200 else if k = 0 then 100 else 0 }

/-- Concrete state for the double-draw counterexample: the single pixel
(0, 0) is lit, I = 0, memory[0] holds the one-byte sprite 0x80 (a single
pixel), all registers 0, so opcode D001 draws that sprite at (0, 0). -/
def ctxDoubleDraw : Chip8Context :=
  { mkContext [] with
      memory := fun a => if a = 0 then 0x80 else 0
      display := fun y x => decide (y = 0) && decide (x = 0) }

/-- Concrete state for the delay readback counterexample: the delay timer
was started with duration 128 (stored counter 128 * (700 / 60) = 1408). -/
def ctxDelay128 : Chip8Context :=
  { mkContext [] with delay_timer := ⟨start_delay 128⟩ }

/-- Program for the reachable out-of-bounds access: ANNN I := 0xFFF;
6xNN V0 := 0xFF; Fx1E I += V0 (I becomes 0x10FE > 0xFFF); Fx33 writes
memory[I..I+2] — out of bounds. -/
def oobProg : List Nat := [0xAF, 0xFF, 0x60, 0xFF, 0xF0, 0x1E, 0xF0, 0x33]

/-- Concrete state for the out-of-range jump: program `BFFF` (jump with
offset to 0xFFF + V0) with V0 = 1, so the jump target is 0x1000. -/
def ctxJump1000 : Chip8Context :=
  { mkContext [0xBF, 0xFF] with register := fun k => if k = 0 then 1 else 0 }

/-- Concrete program whose first instruction jumps to the odd address
0x201. -/
def oddJumpProg : List Nat := [0x12, 0x01]

/-- Chain one more decoded instruction onto a possibly failed execution. -/
def decodeStep (e : Except String Chip8Context) (op rand : Nat) : Except String Chip8Context :=
  match e with
  | .error msg => .error msg
  | .ok c => decode c op rand

/-- Concrete state whose index register points at the font table (so a
draw instruction reads the glyph bytes of the digit 0). -/
def ctxDrawFont : Chip8Context :=
  { mkContext [] with i := FONT_OFFSET }

/-- Program consisting of a single clear-screen instruction 00E0. -/
def clearProg : List Nat := [0x00, 0xE0]

/-- The state after one tick of `clearProg` from construction: the display
cleared and the program counter advanced to 0x202. -/
def ctxClearResult : Chip8Context :=
  { mkContext clearProg with program_counter := 0x202, display := fun _ _ => false }

theorem updf_same (f : Nat → Nat) (k v : Nat) : updf f k v k = v := by
  simp [updf]

theorem updf_ne (f : Nat → Nat) (k v j : Nat) (h : j ≠ k) : updf f k v j = f j := by
  simp [updf, h]

theorem rowTouchesFrom_succ (x b bit n cx : Nat) :
    rowTouchesFrom x b bit (n + 1) cx ↔
      (cx = x + bit ∧ cx < 64 ∧ bitAt b bit = 1) ∨ rowTouchesFrom x b (bit + 1) n cx := by
  constructor
  · rintro ⟨h1, h2, h3, h4⟩
    rcases Nat.eq_or_lt_of_le h1 with he | hlt
    · left
      refine ⟨he.symm, h3, ?_⟩
      have hb : cx - x = bit := by omega
      rwa [hb] at h4
    · right
      exact ⟨by omega, by omega, h3, h4⟩
  · rintro (⟨he, h3, h4⟩ | ⟨h1, h2, h3, h4⟩)
    · subst he
      refine ⟨Nat.le_refl _, by omega, h3, ?_⟩
      have hb : x + bit - x = bit := by omega
      rwa [hb]
    · exact ⟨by omega, by omega, h3, h4⟩

theorem drawBitsList_fst (x y b : Nat) :
    ∀ (n bit : Nat) (d : Display) (cy cx : Nat),
      (drawBitsList d x y b (List.range' bit n)).1 cy cx =
        if cy = y ∧ rowTouchesFrom x b bit n cx then !(d cy cx) else d cy cx := by
  intro n
  induction n with
  | zero =>
    intro bit d cy cx
    rw [if_neg]
    · rfl
    · rintro ⟨hcy, h1, h2, h3, h4⟩
      omega
  | succ n ih =>
    intro bit d cy cx
    rw [List.range'_succ]
    by_cases hx : x + bit < 64
    · by_cases hnp : (b >>> (8 - bit - 1)) &&& 1 = 1
      · by_cases hop : read_pixel_at d (x + bit) y
        · -- lit pixel toggled off (collision)
          simp only [drawBitsList, if_pos hx, if_pos hnp, hop, if_pos]
          rw [ih]
          by_cases hcy : cy = y
          · by_cases hcx : cx = x + bit
            · have hnt : ¬ rowTouchesFrom x b (bit + 1) n cx := by
                rintro ⟨h1, _, _, _⟩; omega
              have ht : cy = y ∧ rowTouchesFrom x b bit (n + 1) cx := by
                refine ⟨hcy, (rowTouchesFrom_succ x b bit n cx).2 (Or.inl ⟨hcx, by omega, hnp⟩)⟩
              rw [if_neg (fun hc => hnt hc.2), if_pos ht]
              have hd : d y (x + bit) = true := hop
              simp only [remove_pixel_at, hcy, hcx, and_self, if_pos, hd, Bool.not_true]
            · have heq : remove_pixel_at d (x + bit) y cy cx = d cy cx := by
                simp [remove_pixel_at, hcx]
              rw [heq]
              by_cases hrt : rowTouchesFrom x b (bit + 1) n cx
              · rw [if_pos ⟨hcy, hrt⟩,
                  if_pos ⟨hcy, (rowTouchesFrom_succ x b bit n cx).2 (Or.inr hrt)⟩]
              · rw [if_neg (fun hc => hrt hc.2), if_neg]
                rintro ⟨-, hc⟩
                rcases (rowTouchesFrom_succ x b bit n cx).1 hc with ⟨he, -, -⟩ | hr
                · exact hcx he
                · exact hrt hr
          · have heq : remove_pixel_at d (x + bit) y cy cx = d cy cx := by
              simp [remove_pixel_at, hcy]
            rw [heq, if_neg (fun hc => hcy hc.1), if_neg (fun hc => hcy hc.1)]
        · -- unlit pixel toggled on
          simp only [drawBitsList, if_pos hx, if_pos hnp, hop, Bool.false_eq_true, if_neg,
            ite_false]
          rw [ih]
          by_cases hcy : cy = y
          · by_cases hcx : cx = x + bit
            · have hnt : ¬ rowTouchesFrom x b (bit + 1) n cx := by
                rintro ⟨h1, _, _, _⟩; omega
              have ht : cy = y ∧ rowTouchesFrom x b bit (n + 1) cx := by
                refine ⟨hcy, (rowTouchesFrom_succ x b bit n cx).2 (Or.inl ⟨hcx, by omega, hnp⟩)⟩
              rw [if_neg (fun hc => hnt hc.2), if_pos ht]
              have hd : d y (x + bit) = false := by
                simpa [read_pixel_at] using hop
              simp only [draw_pixel_at, hcy, hcx, and_self, if_pos, hd, Bool.not_false]
            · have heq : draw_pixel_at d (x + bit) y cy cx = d cy cx := by
                simp [draw_pixel_at, hcx]
              rw [heq]
              by_cases hrt : rowTouchesFrom x b (bit + 1) n cx
              · rw [if_pos ⟨hcy, hrt⟩,
                  if_pos ⟨hcy, (rowTouchesFrom_succ x b bit n cx).2 (Or.inr hrt)⟩]
              · rw [if_neg (fun hc => hrt hc.2), if_neg]
                rintro ⟨-, hc⟩
                rcases (rowTouchesFrom_succ x b bit n cx).1 hc with ⟨he, -, -⟩ | hr
                · exact hcx he
                · exact hrt hr
          · have heq : draw_pixel_at d (x + bit) y cy cx = d cy cx := by
              simp [draw_pixel_at, hcy]
            rw [heq, if_neg (fun hc => hcy hc.1), if_neg (fun hc => hcy hc.1)]
      · -- sprite bit is 0: nothing drawn at this column
        simp only [drawBitsList, if_pos hx, if_neg hnp]
        rw [ih]
        by_cases hcy : cy = y
        · by_cases hrt : rowTouchesFrom x b (bit + 1) n cx
          · rw [if_pos ⟨hcy, hrt⟩,
              if_pos ⟨hcy, (rowTouchesFrom_succ x b bit n cx).2 (Or.inr hrt)⟩]
          · rw [if_neg (fun hc => hrt hc.2), if_neg]
            rintro ⟨-, hc⟩
            rcases (rowTouchesFrom_succ x b bit n cx).1 hc with ⟨-, -, hb⟩ | hr
            · exact hnp hb
            · exact hrt hr
        · rw [if_neg (fun hc => hcy hc.1), if_neg (fun hc => hcy hc.1)]
    · -- hard horizontal clip: loop breaks
      simp only [drawBitsList, if_neg hx]
      rw [if_neg]
      rintro ⟨-, h1, -, h3, -⟩
      omega

theorem drawBitsList_snd (x y b : Nat) :
    ∀ (n bit : Nat) (d : Display),
      ((drawBitsList d x y b (List.range' bit n)).2 = true ↔
        ∃ cx, rowTouchesFrom x b bit n cx ∧ d y cx = true) := by
  intro n
  induction n with
  | zero =>
    intro bit d
    constructor
    · intro h
      exact absurd h (by simp [List.range', drawBitsList])
    · rintro ⟨cx, ⟨h1, h2, -, -⟩, -⟩
      omega
  | succ n ih =>
    intro bit d
    rw [List.range'_succ]
    by_cases hx : x + bit < 64
    · by_cases hnp : (b >>> (8 - bit - 1)) &&& 1 = 1
      · by_cases hop : read_pixel_at d (x + bit) y
        · simp only [drawBitsList, if_pos hx, if_pos hnp, hop, if_pos]
          constructor
          · intro _
            refine ⟨x + bit, (rowTouchesFrom_succ x b bit n (x + bit)).2
              (Or.inl ⟨rfl, hx, hnp⟩), ?_⟩
            exact hop
          · intro _
            trivial
        · simp only [drawBitsList, if_pos hx, if_pos hnp, hop, Bool.false_eq_true, if_neg,
            ite_false]
          rw [ih]
          constructor
          · rintro ⟨cx, hrt, hd⟩
            have hcx : cx ≠ x + bit := by
              rcases hrt with ⟨h1, -, -, -⟩
              omega
            refine ⟨cx, (rowTouchesFrom_succ x b bit n cx).2 (Or.inr hrt), ?_⟩
            have heq : draw_pixel_at d (x + bit) y y cx = d y cx := by
              simp [draw_pixel_at, hcx]
            rwa [heq] at hd
          · rintro ⟨cx, hrt, hd⟩
            rcases (rowTouchesFrom_succ x b bit n cx).1 hrt with ⟨he, -, -⟩ | hr
            · subst he
              have hfalse : d y (x + bit) = false := by
                simpa [read_pixel_at] using hop
              rw [hfalse] at hd
              exact absurd hd (by simp)
            · have hcx : cx ≠ x + bit := by
                rcases hr with ⟨h1, -, -, -⟩
                omega
              refine ⟨cx, hr, ?_⟩
              have heq : draw_pixel_at d (x + bit) y y cx = d y cx := by
                simp [draw_pixel_at, hcx]
              rwa [heq]
      · simp only [drawBitsList, if_pos hx, if_neg hnp]
        rw [ih]
        constructor
        · rintro ⟨cx, hrt, hd⟩
          exact ⟨cx, (rowTouchesFrom_succ x b bit n cx).2 (Or.inr hrt), hd⟩
        · rintro ⟨cx, hrt, hd⟩
          rcases (rowTouchesFrom_succ x b bit n cx).1 hrt with ⟨-, -, hb⟩ | hr
          · exact absurd hb hnp
          · exact ⟨cx, hr, hd⟩
    · simp only [drawBitsList, if_neg hx]
      constructor
      · intro h
        exact absurd h (by simp)
      · rintro ⟨cx, ⟨h1, -, h3, -⟩, -⟩
        omega

theorem drawRow_fst (d : Display) (x y b cy cx : Nat) :
    (drawBitsList d x y b (List.range 8)).1 cy cx =
      if cy = y ∧ rowTouchesFrom x b 0 8 cx then !(d cy cx) else d cy cx := by
  rw [List.range_eq_range']
  exact drawBitsList_fst x y b 8 0 d cy cx

theorem drawRow_snd (d : Display) (x y b : Nat) :
    ((drawBitsList d x y b (List.range 8)).2 = true ↔
      ∃ cx, rowTouchesFrom x b 0 8 cx ∧ d y cx = true) := by
  rw [List.range_eq_range']
  exact drawBitsList_snd x y b 8 0 d

theorem spriteTouches_nil (x y cx cy : Nat) : ¬ spriteTouches x y [] cx cy := by
  rintro ⟨-, h, -, -⟩
  simp at h

theorem spriteTouches_cons (x y byte : Nat) (rest : List Nat) (cx cy : Nat) :
    spriteTouches x y (byte :: rest) cx cy ↔
      (cy = y ∧ y < 32 ∧ rowTouchesFrom x byte 0 8 cx) ∨
        spriteTouches x (y + 1) rest cx cy := by
  constructor
  · rintro ⟨h1, h2, h3, h4⟩
    rcases Nat.eq_or_lt_of_le h1 with he | hlt
    · left
      have hz : cy - y = 0 := by omega
      rw [hz, List.getD_cons_zero] at h4
      exact ⟨he.symm, by omega, h4⟩
    · right
      have hs : cy - y = (cy - (y + 1)) + 1 := by omega
      rw [hs, List.getD_cons_succ] at h4
      simp only [List.length_cons] at h2
      exact ⟨by omega, by omega, h3, h4⟩
  · rintro (⟨he, h2, h3⟩ | ⟨h1, h2, h3, h4⟩)
    · subst he
      refine ⟨Nat.le_refl _, by simp, h2, ?_⟩
      have hz : cy - cy = 0 := by omega
      rw [hz, List.getD_cons_zero]
      exact h3
    · refine ⟨by omega, ?_, h3, ?_⟩
      · simp only [List.length_cons]
        omega
      · have hs : cy - y = (cy - (y + 1)) + 1 := by omega
        rw [hs, List.getD_cons_succ]
        exact h4

theorem drawSprite_fst (x : Nat) :
    ∀ (bytes : List Nat) (y : Nat) (d : Display) (cy cx : Nat),
      (drawSprite d x bytes y).1 cy cx =
        if spriteTouches x y bytes cx cy then !(d cy cx) else d cy cx := by
  intro bytes
  induction bytes with
  | nil =>
    intro y d cy cx
    rw [if_neg (spriteTouches_nil x y cx cy)]
    rfl
  | cons byte rest ih =>
    intro y d cy cx
    by_cases hy : y < 32
    · simp only [drawSprite, if_pos hy]
      rw [ih]
      by_cases h2 : spriteTouches x (y + 1) rest cx cy
      · have hcy : cy ≠ y := by
          rcases h2 with ⟨h1, -, -, -⟩
          omega
        have hrow : (drawBitsList d x y byte (List.range 8)).1 cy cx = d cy cx := by
          rw [drawRow_fst, if_neg (fun hc => hcy hc.1)]
        rw [if_pos h2, hrow,
          if_pos ((spriteTouches_cons x y byte rest cx cy).2 (Or.inr h2))]
      · rw [if_neg h2, drawRow_fst]
        by_cases h3 : cy = y ∧ rowTouchesFrom x byte 0 8 cx
        · rw [if_pos h3,
            if_pos ((spriteTouches_cons x y byte rest cx cy).2 (Or.inl ⟨h3.1, hy, h3.2⟩))]
        · rw [if_neg h3, if_neg]
          intro hc
          rcases (spriteTouches_cons x y byte rest cx cy).1 hc with ⟨hcy, -, hrt⟩ | hr
          · exact h3 ⟨hcy, hrt⟩
          · exact h2 hr
    · simp only [drawSprite, if_neg hy]
      rw [if_neg]
      rintro ⟨h1, -, h3, -⟩
      omega

theorem drawSprite_snd (x : Nat) :
    ∀ (bytes : List Nat) (y : Nat) (d : Display),
      ((drawSprite d x bytes y).2 = true ↔
        ∃ cx cy, spriteTouches x y bytes cx cy ∧ d cy cx = true) := by
  intro bytes
  induction bytes with
  | nil =>
    intro y d
    constructor
    · intro h
      exact absurd h (by simp [drawSprite])
    · rintro ⟨cx, cy, ht, -⟩
      exact absurd ht (spriteTouches_nil x y cx cy)
  | cons byte rest ih =>
    intro y d
    by_cases hy : y < 32
    · simp only [drawSprite, if_pos hy, Bool.or_eq_true]
      rw [ih, drawRow_snd]
      constructor
      · rintro (⟨cx, hrt, hd⟩ | ⟨cx, cy, ht, hd⟩)
        · exact ⟨cx, y, (spriteTouches_cons x y byte rest cx y).2
            (Or.inl ⟨rfl, hy, hrt⟩), hd⟩
        · have hcy : cy ≠ y := by
            rcases ht with ⟨h1, -, -, -⟩
            omega
          have hrow : (drawBitsList d x y byte (List.range 8)).1 cy cx = d cy cx := by
            rw [drawRow_fst, if_neg (fun hc => hcy hc.1)]
          exact ⟨cx, cy, (spriteTouches_cons x y byte rest cx cy).2 (Or.inr ht),
            hrow ▸ hd⟩
      · rintro ⟨cx, cy, ht, hd⟩
        rcases (spriteTouches_cons x y byte rest cx cy).1 ht with ⟨hcy, -, hrt⟩ | hr
        · subst hcy
          exact Or.inl ⟨cx, hrt, hd⟩
        · have hcy : cy ≠ y := by
            rcases hr with ⟨h1, -, -, -⟩
            omega
          have hrow : (drawBitsList d x y byte (List.range 8)).1 cy cx = d cy cx := by
            rw [drawRow_fst, if_neg (fun hc => hcy hc.1)]
          exact Or.inr ⟨cx, cy, hr, hrow.symm ▸ hd⟩
    · simp only [drawSprite, if_neg hy]
      constructor
      · intro h
        exact absurd h (by simp)
      · rintro ⟨cx, cy, ⟨h1, -, h3, -⟩, -⟩
        omega

theorem dtimer_iterate : ∀ (k t : Nat), (DTimer.update^[k] ⟨t⟩).time = t - k := by
  intro k
  induction k with
  | zero =>
    intro t
    simp
  | succ k ih =>
    intro t
    rw [Function.iterate_succ_apply]
    match t with
    | 0 =>
      have hu : DTimer.update ⟨0⟩ = ⟨0⟩ := by simp [DTimer.update]
      rw [hu, ih]
      omega
    | m + 1 =>
      have hu : DTimer.update ⟨m + 1⟩ = ⟨m⟩ := by simp [DTimer.update]
      rw [hu, ih]
      omega

/-- C4: starting the delay timer with duration d stores d * (TARGET_IPS / 60)
(the Fx15 wiring), and from that counter value exactly d * (TARGET_IPS / 60)
timer update steps reach 0 while one fewer step (for d at least 1) leaves a
strictly positive counter. -/
theorem delay_timer_countdown :
    (∀ (ctx : Chip8Context) (rand op : Nat), bit_i op 0 = 0xF → op &&& 0xFF = 0x15 →
      decode ctx op rand =
        .ok { ctx with delay_timer := ⟨ctx.register (bit_i op 1) * (TARGET_IPS / 60)⟩ }) ∧
    (∀ d : Nat,
      (DTimer.update^[d * (TARGET_IPS / 60)] ⟨start_delay d⟩).time = 0 ∧
      (1 ≤ d → 0 < (DTimer.update^[d * (TARGET_IPS / 60) - 1] ⟨start_delay d⟩).time)) := by
  constructor
  · intro ctx rand op h0 h1
    simp only [decode, h0, h1, start_delay]
  · intro d
    constructor
    · rw [dtimer_iterate]
      simp [start_delay]
    · intro hd
      rw [dtimer_iterate]
      have h60 : TARGET_IPS / 60 = 11 := by norm_num [TARGET_IPS]
      rw [start_delay, h60]
      omega

theorem delay_timer_countdown_witness :
    decode (mkContext []) 0xF315 7 =
      .ok { mkContext [] with delay_timer := ⟨(mkContext []).register (bit_i 0xF315 1) * (TARGET_IPS / 60)⟩ } ∧
    (DTimer.update^[3 * (TARGET_IPS / 60)] ⟨start_delay 3⟩).time = 0 ∧
    (1 ≤ 3 ∧ 0 < (DTimer.update^[3 * (TARGET_IPS / 60) - 1] ⟨start_delay 3⟩).time) :=
  ⟨delay_timer_countdown.1 (mkContext []) 7 0xF315 (by decide) (by decide),
   (delay_timer_countdown.2 3).1,
   by decide, (delay_timer_countdown.2 3).2 (by decide)⟩

/-- C8: opcode 00EE pops the most recently pushed program counter (the head
of the stack, which the 2nnn call pushes) into the program counter, and on
an empty stack the execution surfaces an explicit error. -/
theorem return_pops_stack :
    (∀ (ctx : Chip8Context) (rand p : Nat) (rest : List Nat), ctx.stack = p :: rest →
      decode ctx 0x00EE rand = .ok { ctx with program_counter := p, stack := rest }) ∧
    (∀ (ctx : Chip8Context) (rand : Nat), ctx.stack = [] →
      ∃ msg, decode ctx 0x00EE rand = .error msg) ∧
    (∀ (ctx : Chip8Context) (rand op : Nat), bit_i op 0 = 0x2 →
      decode ctx op rand =
        .ok { ctx with stack := ctx.program_counter :: ctx.stack,
                       program_counter := op &&& 0xFFF }) := by
  refine ⟨?_, ?_, ?_⟩
  · rintro ⟨mem, disp, pc, ii, stk, dt, st, reg, kp⟩ rand p rest hstack
    simp only at hstack
    subst hstack
    rfl
  · rintro ⟨mem, disp, pc, ii, stk, dt, st, reg, kp⟩ rand hstack
    simp only at hstack
    subst hstack
    exact ⟨_, rfl⟩
  · intro ctx rand op h0
    simp only [decode, h0]

theorem return_pops_stack_witness :
    decode { mkContext [] with stack := [0x300, 0x400] } 0x00EE 0 =
      .ok { { mkContext [] with stack := [0x300, 0x400] } with
              program_counter := 0x300, stack := [0x400] } ∧
    (∃ msg, decode (mkContext []) 0x00EE 0 = .error msg) ∧
    decode (mkContext []) 0x2ABC 0 =
      .ok { mkContext [] with stack := (mkContext []).program_counter :: (mkContext []).stack,
                              program_counter := 0x2ABC &&& 0xFFF } :=
  ⟨return_pops_stack.1 _ 0 0x300 [0x400] rfl,
   return_pops_stack.2.1 (mkContext []) 0 rfl,
   return_pops_stack.2.2 (mkContext []) 0 0x2ABC (by decide)⟩

set_option maxRecDepth 4000

/-- C10 (amended): Fx07 reads back the internal counter truncated to 8 bits
(Vx = t mod 256); the counter is stored in scaled units d * (TARGET_IPS / 60),
so for every u8 duration d with a scaled counter above 255 — except d = 128,
where the truncation happens to reproduce d — the value read back right
after starting differs from d (which is also the remaining time in 60Hz
units at that moment). -/
theorem read_delay_truncates :
    (∀ (ctx : Chip8Context) (rand op : Nat), bit_i op 0 = 0xF → op &&& 0xFF = 0x07 →
      decode ctx op rand =
        .ok { ctx with register := updf ctx.register (bit_i op 1) (ctx.delay_timer.time % 256) }) ∧
    (∀ d : Nat, d < 256 → 255 < start_delay d → d ≠ 128 → start_delay d % 256 ≠ d) := by
  constructor
  · intro ctx rand op h0 h1
    simp only [decode, h0, h1]
  · decide

theorem read_delay_truncates_witness :
    decode ctxDelay128 0xF007 0 =
      .ok { ctxDelay128 with
              register := updf ctxDelay128.register (bit_i 0xF007 1) (ctxDelay128.delay_timer.time % 256) } ∧
    (30 < 256 ∧ 255 < start_delay 30 ∧ 30 ≠ 128 ∧ start_delay 30 % 256 ≠ 30) :=
  ⟨read_delay_truncates.1 ctxDelay128 0 0xF007 (by decide) (by decide),
   by decide, by decide, by decide,
   read_delay_truncates.2 30 (by decide) (by decide) (by decide)⟩

/-- C10 counterexample: for duration d = 128 the scaled counter is
128 * (700 / 60) = 1408 > 255, yet the Fx07 readback is 1408 mod 256 = 128,
which equals d (and the remaining 60Hz-equivalent time) — refuting the
claim that the readback never equals either. -/
theorem read_delay_truncates_cex :
    255 < start_delay 128 ∧ regAfter (decode ctxDelay128 0xF007 0) 0 = 128 := by
  decide

/-- C1 (amended): for the shift instructions 8xy6/8xyE the flag write
happens after the data write, so with x = 0xF the final VF is the flag
(the shifted-out bit of the old VF); Fx1E writes its data to I and the
flag to VF afterwards; but for 8xy4, 8xy5 and 8xy7 the flag write happens
before the data write, so with x = 0xF the final VF is the data result,
computed from the flag-overwritten VF operand (flag + Vy mod 256 for add,
flag - Vy mod 256 for subtract, Vy - flag mod 256 for reverse subtract). -/
theorem alu_flag_write_order :
    (∀ (ctx : Chip8Context) (rand op : Nat), bit_i op 0 = 0x8 → op &&& 0xF = 0x6 →
      bit_i op 1 = 0xF →
      ∃ c2, decode ctx op rand = .ok c2 ∧ c2.register 0xF = ctx.register 0xF &&& 0x1) ∧
    (∀ (ctx : Chip8Context) (rand op : Nat), bit_i op 0 = 0x8 → op &&& 0xF = 0xE →
      bit_i op 1 = 0xF →
      ∃ c2, decode ctx op rand = .ok c2 ∧
        c2.register 0xF = (ctx.register 0xF &&& 0x80) >>> 7) ∧
    (∀ (ctx : Chip8Context) (rand op : Nat), bit_i op 0 = 0xF → op &&& 0xFF = 0x1E →
      ∃ c2, decode ctx op rand = .ok c2 ∧
        c2.i = (ctx.i + ctx.register (bit_i op 1)) % 65536 ∧
        c2.register 0xF =
          (if (ctx.i + ctx.register (bit_i op 1)) % 65536 > 0xFFF then 1
           else ctx.register 0xF)) ∧
    (∀ (ctx : Chip8Context) (rand op : Nat), bit_i op 0 = 0x8 → op &&& 0xF = 0x4 →
      bit_i op 1 = 0xF → bit_i op 2 ≠ 0xF → ctx.register (bit_i op 2) < 256 →
      ∃ c2, decode ctx op rand = .ok c2 ∧
        c2.register 0xF =
          ((if ctx.register 0xF + ctx.register (bit_i op 2) > 255 then 1 else 0) +
            ctx.register (bit_i op 2)) % 256) ∧
    (∀ (ctx : Chip8Context) (rand op : Nat), bit_i op 0 = 0x8 → op &&& 0xF = 0x5 →
      bit_i op 1 = 0xF → bit_i op 2 ≠ 0xF →
      ∃ c2, decode ctx op rand = .ok c2 ∧
        c2.register 0xF =
          ((if ctx.register 0xF > ctx.register (bit_i op 2) then 1 else 0) + 256 -
            ctx.register (bit_i op 2)) % 256) ∧
    (∀ (ctx : Chip8Context) (rand op : Nat), bit_i op 0 = 0x8 → op &&& 0xF = 0x7 →
      bit_i op 1 = 0xF → bit_i op 2 ≠ 0xF →
      ∃ c2, decode ctx op rand = .ok c2 ∧
        c2.register 0xF =
          (ctx.register (bit_i op 2) + 256 -
            (if ctx.register (bit_i op 2) > ctx.register 0xF then 1 else 0)) % 256) := by
  refine ⟨?_, ?_, ?_, ?_, ?_, ?_⟩
  · intro ctx rand op h0 h1 hx
    simp only [decode, h0, h1, hx]
    exact ⟨_, rfl, by simp [updf]⟩
  · intro ctx rand op h0 h1 hx
    simp only [decode, h0, h1, hx]
    exact ⟨_, rfl, by simp [updf]⟩
  · intro ctx rand op h0 h1
    simp only [decode, h0, h1]
    by_cases hc : (ctx.i + ctx.register (bit_i op 1)) % 65536 > 0xFFF
    · rw [if_pos hc]
      exact ⟨_, rfl, rfl, by rw [if_pos hc]; simp [updf]⟩
    · rw [if_neg hc]
      exact ⟨_, rfl, rfl, by rw [if_neg hc]⟩
  · intro ctx rand op h0 h1 hx hy hb
    simp only [decode, h0, h1, hx]
    by_cases hc : ctx.register 0xF + ctx.register (bit_i op 2) > 255
    · rw [if_pos hc]
      refine ⟨_, rfl, ?_⟩
      rw [if_pos hc]
      simp [updf, hy]
    · rw [if_neg hc]
      refine ⟨_, rfl, ?_⟩
      rw [if_neg hc]
      simp [updf, hy]
      omega
  · intro ctx rand op h0 h1 hx hy
    simp only [decode, h0, h1, hx]
    refine ⟨_, rfl, ?_⟩
    simp [updf, hy]
  · intro ctx rand op h0 h1 hx hy
    simp only [decode, h0, h1, hx]
    refine ⟨_, rfl, ?_⟩
    simp [updf, hy]

theorem alu_flag_write_order_witness :
    (∃ c2, decode ctxAddVF 0x8F06 0 = .ok c2 ∧
      c2.register 0xF = ctxAddVF.register 0xF &&& 0x1) ∧
    (∃ c2, decode ctxAddVF 0x8F0E 0 = .ok c2 ∧
      c2.register 0xF = (ctxAddVF.register 0xF &&& 0x80) >>> 7) ∧
    (∃ c2, decode ctxAddVF 0xF01E 0 = .ok c2 ∧
      c2.i = (ctxAddVF.i + ctxAddVF.register (bit_i 0xF01E 1)) % 65536 ∧
      c2.register 0xF =
        (if (ctxAddVF.i + ctxAddVF.register (bit_i 0xF01E 1)) % 65536 > 0xFFF then 1
         else ctxAddVF.register 0xF)) ∧
    (∃ c2, decode ctxAddVF 0x8F04 0 = .ok c2 ∧
      c2.register 0xF =
        ((if ctxAddVF.register 0xF + ctxAddVF.register (bit_i 0x8F04 2) > 255 then 1 else 0) +
          ctxAddVF.register (bit_i 0x8F04 2)) % 256) ∧
    (∃ c2, decode ctxAddVF 0x8F05 0 = .ok c2 ∧
      c2.register 0xF =
        ((if ctxAddVF.register 0xF > ctxAddVF.register (bit_i 0x8F05 2) then 1 else 0) + 256 -
          ctxAddVF.register (bit_i 0x8F05 2)) % 256) ∧
    (∃ c2, decode ctxAddVF 0x8F07 0 = .ok c2 ∧
      c2.register 0xF =
        (ctxAddVF.register (bit_i 0x8F07 2) + 256 -
          (if ctxAddVF.register (bit_i 0x8F07 2) > ctxAddVF.register 0xF then 1 else 0)) % 256) :=
  ⟨alu_flag_write_order.1 ctxAddVF 0 0x8F06 (by decide) (by decide) (by decide),
   alu_flag_write_order.2.1 ctxAddVF 0 0x8F0E (by decide) (by decide) (by decide),
   alu_flag_write_order.2.2.1 ctxAddVF 0 0xF01E (by decide) (by decide),
   alu_flag_write_order.2.2.2.1 ctxAddVF 0 0x8F04 (by decide) (by decide) (by decide)
     (by decide) (by decide),
   alu_flag_write_order.2.2.2.2.1 ctxAddVF 0 0x8F05 (by decide) (by decide) (by decide)
     (by decide),
   alu_flag_write_order.2.2.2.2.2 ctxAddVF 0 0x8F07 (by decide) (by decide) (by decide)
     (by decide)⟩

/-- C1 counterexample: executing 8F04 (VF := VF + V0 with carry) from
VF = 200, V0 = 100 overflows, so the flag value is 1; the claim says the
final VF is that flag value, but the final VF is 101 — the data result
(1 + 100) mod 256 computed after the flag write overwrote the VF operand. -/
theorem alu_flag_write_order_cex :
    regAfter (decode ctxAddVF 0x8F04 0) 0xF = 101 ∧
    regAfter (decode ctxAddVF 0x8F04 0) 0xF ≠ 1 := by
  decide

/-- C2: a draw instruction Dxyn whose sprite bytes memory[I..I+n] are in
bounds succeeds; drawing starts at (Vx mod 64, Vy mod 32); a pixel changes
exactly when it is touched (its sprite bit is 1 and it is inside the 64x32
bounds — rows and columns that would exceed the bounds are skipped, never
wrapped), and a touched pixel is toggled; VF ends 1 exactly when some
touched pixel was lit before the draw, and 0 otherwise. -/
theorem draw_instruction_semantics (ctx : Chip8Context) (rand op : Nat)
    (h0 : bit_i op 0 = 0xD) (hmem : ctx.i + (op &&& 0xF) ≤ 4096) :
    ∃ c2, decode ctx op rand = .ok c2 ∧
      (∀ cy cx, c2.display cy cx =
        if spriteTouches (ctx.register (bit_i op 1) % 64) (ctx.register (bit_i op 2) % 32)
            ((List.range (op &&& 0xF)).map (fun k => ctx.memory (ctx.i + k))) cx cy
        then !(ctx.display cy cx) else ctx.display cy cx) ∧
      (c2.register 0xF = 1 ↔
        ∃ cx cy, spriteTouches (ctx.register (bit_i op 1) % 64)
            (ctx.register (bit_i op 2) % 32)
            ((List.range (op &&& 0xF)).map (fun k => ctx.memory (ctx.i + k))) cx cy ∧
          ctx.display cy cx = true) ∧
      (c2.register 0xF = 0 ∨ c2.register 0xF = 1) := by
  have hmod : (ctx.i + (op &&& 0xF)) % 65536 = ctx.i + (op &&& 0xF) :=
    Nat.mod_eq_of_lt (by omega)
  have hreg : get_mem_region ctx.memory ctx.i ((ctx.i + (op &&& 0xF)) % 65536) =
      .ok ((List.range (op &&& 0xF)).map (fun k => ctx.memory (ctx.i + k))) := by
    rw [hmod]
    unfold get_mem_region
    rw [if_pos ⟨by omega, hmem⟩]
    have hlen : ctx.i + (op &&& 0xF) - ctx.i = op &&& 0xF := by omega
    rw [hlen]
  simp only [decode, h0, hreg]
  by_cases hcol : (drawSprite ctx.display (ctx.register (bit_i op 1) % 64)
      ((List.range (op &&& 0xF)).map (fun k => ctx.memory (ctx.i + k)))
      (ctx.register (bit_i op 2) % 32)).2 = true
  · rw [if_pos hcol]
    refine ⟨_, rfl, ?_, ?_, ?_⟩
    · intro cy cx
      exact drawSprite_fst _ _ _ _ cy cx
    · simp only [updf_same]
      exact iff_of_true trivial ((drawSprite_snd _ _ _ _).1 hcol)
    · simp only [updf_same]
      exact Or.inr trivial
  · rw [if_neg hcol]
    refine ⟨_, rfl, ?_, ?_, ?_⟩
    · intro cy cx
      exact drawSprite_fst _ _ _ _ cy cx
    · simp only [updf_same]
      refine iff_of_false (by omega) (fun h => hcol ((drawSprite_snd _ _ _ _).2 h))
    · simp only [updf_same]
      exact Or.inl trivial

theorem draw_instruction_semantics_witness :
    (bit_i 0xD005 0 = 0xD ∧ ctxDrawFont.i + (0xD005 &&& 0xF) ≤ 4096) ∧
    (∃ c2, decode ctxDrawFont 0xD005 0 = .ok c2 ∧
      (∀ cy cx, c2.display cy cx =
        if spriteTouches (ctxDrawFont.register (bit_i 0xD005 1) % 64)
            (ctxDrawFont.register (bit_i 0xD005 2) % 32)
            ((List.range (0xD005 &&& 0xF)).map (fun k => ctxDrawFont.memory (ctxDrawFont.i + k)))
            cx cy
        then !(ctxDrawFont.display cy cx) else ctxDrawFont.display cy cx) ∧
      (c2.register 0xF = 1 ↔
        ∃ cx cy, spriteTouches (ctxDrawFont.register (bit_i 0xD005 1) % 64)
            (ctxDrawFont.register (bit_i 0xD005 2) % 32)
            ((List.range (0xD005 &&& 0xF)).map (fun k => ctxDrawFont.memory (ctxDrawFont.i + k)))
            cx cy ∧
          ctxDrawFont.display cy cx = true) ∧
      (c2.register 0xF = 0 ∨ c2.register 0xF = 1)) :=
  ⟨⟨by decide, by decide⟩,
   draw_instruction_semantics ctxDrawFont 0 0xD005 (by decide) (by decide)⟩

/-- C5 (amended): drawing the same sprite twice at the same location
returns every pixel to its state before the first draw; the second draw
reports a collision (the draw loop's flag, which decode writes to VF as
0/1) exactly when some touched pixel was unlit before the first draw —
not always, as the claim stated. -/
theorem double_draw_involution (d : Display) (x : Nat) (bytes : List Nat) (y : Nat) :
    (∀ cy cx, (drawSprite (drawSprite d x bytes y).1 x bytes y).1 cy cx = d cy cx) ∧
    ((drawSprite (drawSprite d x bytes y).1 x bytes y).2 = true ↔
      ∃ cx cy, spriteTouches x y bytes cx cy ∧ d cy cx = false) := by
  constructor
  · intro cy cx
    rw [drawSprite_fst, drawSprite_fst]
    by_cases ht : spriteTouches x y bytes cx cy
    · rw [if_pos ht, if_pos ht, Bool.not_not]
    · rw [if_neg ht, if_neg ht]
  · rw [drawSprite_snd]
    constructor
    · rintro ⟨cx, cy, ht, hd⟩
      refine ⟨cx, cy, ht, ?_⟩
      rw [drawSprite_fst, if_pos ht] at hd
      simpa using hd
    · rintro ⟨cx, cy, ht, hd⟩
      refine ⟨cx, cy, ht, ?_⟩
      rw [drawSprite_fst, if_pos ht, hd]
      rfl

/-- C5 counterexample: drawing the one-pixel sprite 0x80 at (0, 0) twice on
a display whose only lit pixel is (0, 0): the first draw collides (VF = 1),
but the second draw — which the claim says must set VF = 1 — leaves VF = 0,
because the only touched pixel was unlit after the first draw. -/
theorem double_draw_cex :
    regAfter (decode ctxDoubleDraw 0xD001 0) 0xF = 1 ∧
    regAfter (decodeStep (decode ctxDoubleDraw 0xD001 0) 0xD001 0) 0xF = 0 := by
  decide

/-- C3: a jump-with-offset whose target is 0x1000 (one past the 12-bit
address range), followed by one tick, reads no memory out of bounds: the
tick that executes the jump wraps the program counter back to INSTR_OFFSET
(0x200), so the next fetch succeeds with in-bounds addresses. -/
theorem jump_out_of_range_wraps (ctx : Chip8Context) (rand op : Nat)
    (hf : fetchInstr ctx = .ok op) (hB : bit_i op 0 = 0xB)
    (ht : (op &&& 0xFFF) + ctx.register 0 = 0x1000) :
    ∃ c2, processInstructions ctx rand = .ok c2 ∧
      c2.program_counter = INSTR_OFFSET ∧ isOkF (fetchInstr c2) = true := by
  unfold processInstructions
  rw [hf]
  simp only [decode, hB]
  rw [ht]
  rw [if_pos (by norm_num)]
  exact ⟨_, rfl, rfl, rfl⟩

theorem jump_out_of_range_wraps_witness :
    (fetchInstr ctxJump1000 = .ok 0xBFFF ∧
      bit_i 0xBFFF 0 = 0xB ∧ (0xBFFF &&& 0xFFF) + ctxJump1000.register 0 = 0x1000) ∧
    (∃ c2, processInstructions ctxJump1000 0 = .ok c2 ∧
      c2.program_counter = INSTR_OFFSET ∧ isOkF (fetchInstr c2) = true) :=
  ⟨⟨rfl, by decide, by decide⟩,
   jump_out_of_range_wraps ctxJump1000 0 0xBFFF rfl (by decide) (by decide)⟩

theorem bit_i_lt_16 (op : Nat) : bit_i op 0 < 16 :=
  lt_of_le_of_lt Nat.and_le_right (by norm_num)

theorem decode_unassigned (c : Chip8Context) (rand op : Nat)
    (hu : isUnassigned op = true) : decode c op rand = .ok c := by
  have h16 : bit_i op 0 < 16 := bit_i_lt_16 op
  unfold isUnassigned at hu
  obtain ⟨b, hb⟩ : ∃ b, bit_i op 0 = b := ⟨_, rfl⟩
  rw [hb] at hu h16
  interval_cases b <;> simp at hu
  · simp only [decode, hb]
    rw [if_neg hu.1, if_neg hu.2]
  · rcases hu with ((((((h | h) | h) | h) | h) | h) | h) <;> simp [decode, hb, h]
  · simp only [decode, hb]
    split <;> simp_all
  · simp only [decode, hb]
    split <;> simp_all

/-- C7: a tick whose fetched opcode matches no assigned pattern of the
instruction table is a no-op apart from the fetch: memory, display,
registers, index register, stack, timers and keypad are unchanged, the
program counter advances by exactly 2 (wrapping to INSTR_OFFSET at the
memory bound), and no error is raised. -/
theorem unknown_opcode_is_nop (ctx : Chip8Context) (rand op : Nat)
    (hf : fetchInstr ctx = .ok op) (hu : isUnassigned op = true) : NopStep ctx rand := by
  unfold NopStep
  simp only [processInstructions, hf, decode_unassigned _ rand op hu]
  by_cases hw : ctx.program_counter + 2 ≥ 4096
  · rw [if_pos hw]
    exact ⟨_, rfl, rfl, rfl, rfl, rfl, rfl, rfl, rfl, rfl, by rw [if_pos hw]⟩
  · rw [if_neg hw]
    exact ⟨_, rfl, rfl, rfl, rfl, rfl, rfl, rfl, rfl, rfl, by rw [if_neg hw]⟩

theorem unknown_opcode_is_nop_witness :
    (fetchInstr (mkContext []) = .ok 0x0000 ∧ isUnassigned 0x0000 = true) ∧
    NopStep (mkContext []) 0 :=
  ⟨⟨rfl, by decide⟩, unknown_opcode_is_nop (mkContext []) 0 0x0000 rfl (by decide)⟩

theorem decode_pc_parity (c : Chip8Context) (rand op : Nat) (c2 : Chip8Context)
    (hd : directPcInstr op = false)
    (hdec : decode c op rand = .ok c2)
    (hpc : c.program_counter % 2 = 0) : c2.program_counter % 2 = 0 := by
  have h16 : bit_i op 0 < 16 := bit_i_lt_16 op
  unfold directPcInstr at hd
  obtain ⟨b, hb⟩ : ∃ b, bit_i op 0 = b := ⟨_, rfl⟩
  rw [hb] at hd h16
  interval_cases b
  · -- 0x0: clear screen (pc unchanged) or nop; return is excluded by hd
    simp at hd
    simp only [decode, hb] at hdec
    rw [if_neg hd] at hdec
    split at hdec <;> (injection hdec with h; subst h; exact hpc)
  · simp at hd
  · simp at hd
  · -- 0x3: skip adds 2 or leaves pc
    simp only [decode, hb] at hdec
    split at hdec <;> (injection hdec with h; subst h)
    · change (c.program_counter + 2) % 2 = 0
      omega
    · exact hpc
  · simp only [decode, hb] at hdec
    split at hdec <;> (injection hdec with h; subst h)
    · change (c.program_counter + 2) % 2 = 0
      omega
    · exact hpc
  · simp only [decode, hb] at hdec
    split at hdec <;> (injection hdec with h; subst h)
    · change (c.program_counter + 2) % 2 = 0
      omega
    · exact hpc
  · simp only [decode, hb] at hdec
    injection hdec with h
    subst h
    exact hpc
  · simp only [decode, hb] at hdec
    injection hdec with h
    subst h
    exact hpc
  · -- 0x8: ALU family leaves the pc unchanged
    simp only [decode, hb] at hdec
    split at hdec <;> (try split at hdec) <;> (injection hdec with h; subst h; exact hpc)
  · simp only [decode, hb] at hdec
    split at hdec <;> (injection hdec with h; subst h)
    · change (c.program_counter + 2) % 2 = 0
      omega
    · exact hpc
  · simp only [decode, hb] at hdec
    injection hdec with h
    subst h
    exact hpc
  · simp at hd
  · simp only [decode, hb] at hdec
    injection hdec with h
    subst h
    exact hpc
  · -- 0xD: draw leaves the pc unchanged (or faults)
    simp only [decode, hb] at hdec
    split at hdec
    · exact Except.noConfusion hdec
    · injection hdec with h
      subst h
      exact hpc
  · -- 0xE: key skips add 2 or leave pc
    simp only [decode, hb] at hdec
    split at hdec
    · split at hdec
      · split at hdec <;> (injection hdec with h; subst h)
        · change (c.program_counter + 2) % 2 = 0
          omega
        · exact hpc
      · exact Except.noConfusion hdec
    · split at hdec
      · split at hdec <;> (injection hdec with h; subst h)
        · exact hpc
        · change (c.program_counter + 2) % 2 = 0
          omega
      · exact Except.noConfusion hdec
    · injection hdec with h
      subst h
      exact hpc
  · -- 0xF family
    simp only [decode, hb] at hdec
    split at hdec
    · injection hdec with h; subst h; exact hpc
    · injection hdec with h; subst h; exact hpc
    · injection hdec with h; subst h; exact hpc
    · split at hdec <;> (injection hdec with h; subst h; exact hpc)
    · split at hdec
      · injection hdec with h
        subst h
        change (c.program_counter - 2) % 2 = 0
        omega
      · split at hdec <;> (injection hdec with h; subst h; exact hpc)
    · injection hdec with h; subst h; exact hpc
    · split at hdec
      · split at hdec
        · split at hdec
          · injection hdec with h; subst h; exact hpc
          · exact Except.noConfusion hdec
        · exact Except.noConfusion hdec
      · exact Except.noConfusion hdec
    · split at hdec
      · injection hdec with h; subst h; exact hpc
      · exact Except.noConfusion hdec
    · split at hdec
      · injection hdec with h; subst h; exact hpc
      · exact Except.noConfusion hdec
    · injection hdec with h; subst h; exact hpc

/-- C6 (amended): even alignment of the program counter is preserved by
every tick whose instruction is not one of the direct pc-setting opcodes
(1nnn jump, 2nnn call, Bnnn jump-with-offset, 00EE return): the fetch
advance, the skips, the get-key rewind and the memory-bound wrap all move
the pc by even amounts or to the even address 0x200. It is not an
invariant of all reachable states, because a jump target can be odd. -/
theorem pc_parity_preserved (ctx : Chip8Context) (rand op : Nat) (c2 : Chip8Context)
    (hpc : ctx.program_counter % 2 = 0)
    (hf : fetchInstr ctx = .ok op)
    (hd : directPcInstr op = false)
    (hp : processInstructions ctx rand = .ok c2) : c2.program_counter % 2 = 0 := by
  simp only [processInstructions, hf] at hp
  cases hdec : decode { ctx with program_counter := ctx.program_counter + 2 } op rand with
  | error e =>
    simp only [hdec] at hp
    exact Except.noConfusion hp
  | ok c3 =>
    simp only [hdec] at hp
    have hcp : ({ ctx with program_counter := ctx.program_counter + 2 } :
        Chip8Context).program_counter % 2 = 0 := by
      change (ctx.program_counter + 2) % 2 = 0
      omega
    have h3 : c3.program_counter % 2 = 0 := decode_pc_parity _ rand op c3 hd hdec hcp
    by_cases hw : c3.program_counter ≥ 4096
    · rw [if_pos hw] at hp
      injection hp with h
      subst h
      change (INSTR_OFFSET : Nat) % 2 = 0
      decide
    · rw [if_neg hw] at hp
      injection hp with h
      subst h
      exact h3

theorem pc_parity_preserved_witness :
    ((mkContext clearProg).program_counter % 2 = 0 ∧
      fetchInstr (mkContext clearProg) = .ok 0x00E0 ∧
      directPcInstr 0x00E0 = false) ∧
    ctxClearResult.program_counter % 2 = 0 :=
  ⟨⟨by decide, rfl, by decide⟩,
   pc_parity_preserved (mkContext clearProg) 0 0x00E0 ctxClearResult (by decide) rfl
     (by decide) rfl⟩

/-- C6 counterexample: the program whose first instruction is 1201 (jump to
0x201) reaches an odd program counter after a single tick from
construction, so the evenness invariant fails for reachable states. -/
theorem pc_parity_cex :
    pcAfter (processInstructions (mkContext oddJumpProg) 0) = 0x201 ∧
    pcAfter (processInstructions (mkContext oddJumpProg) 0) % 2 = 1 := by
  decide

theorem storeRegsAux_ok :
    ∀ (ks : List Nat) (reg : Nat → Nat) (base : Nat) (mem : Nat → Nat),
      (∀ k ∈ ks, base + k < 4096) → ∃ m, storeRegsAux reg base ks mem = .ok m := by
  intro ks
  induction ks with
  | nil =>
    intro reg base mem h
    exact ⟨mem, rfl⟩
  | cons k rest ih =>
    intro reg base mem h
    have hk : base + k < 4096 := h k (List.mem_cons_self k rest)
    have hmod : (base + k) % 65536 = base + k := Nat.mod_eq_of_lt (by omega)
    simp only [storeRegsAux, hmod, if_pos hk]
    exact ih reg base _ (fun j hj => h j (List.mem_cons_of_mem k hj))

theorem loadRegsAux_ok :
    ∀ (ks : List Nat) (mem : Nat → Nat) (base : Nat) (reg : Nat → Nat),
      (∀ k ∈ ks, base + k < 4096) → ∃ r, loadRegsAux mem base ks reg = .ok r := by
  intro ks
  induction ks with
  | nil =>
    intro mem base reg h
    exact ⟨reg, rfl⟩
  | cons k rest ih =>
    intro mem base reg h
    have hk : base + k < 4096 := h k (List.mem_cons_self k rest)
    have hmod : (base + k) % 65536 = base + k := Nat.mod_eq_of_lt (by omega)
    simp only [loadRegsAux, hmod, if_pos hk]
    exact ih mem base _ (fun j hj => h j (List.mem_cons_of_mem k hj))

/-- C9: the memory-accessing instructions index memory from I with no bounds
check and no masking: Fx33 is fault-free whenever I+2 < 4096, Fx55/Fx65
whenever I+x < 4096, and Dxyn whenever I+n is at most 4096; and from
construction the four-instruction program ANNN/6xNN/Fx1E/Fx33 (which pushes
I to 0x10FE via Fx1E) reaches a faulting access. -/
theorem mem_access_unchecked :
    (∀ (ctx : Chip8Context) (rand op : Nat), bit_i op 0 = 0xF → op &&& 0xFF = 0x33 →
      ctx.i + 2 < 4096 → isOkC (decode ctx op rand) = true) ∧
    (∀ (ctx : Chip8Context) (rand op : Nat), bit_i op 0 = 0xF → op &&& 0xFF = 0x55 →
      ctx.i + bit_i op 1 < 4096 → isOkC (decode ctx op rand) = true) ∧
    (∀ (ctx : Chip8Context) (rand op : Nat), bit_i op 0 = 0xF → op &&& 0xFF = 0x65 →
      ctx.i + bit_i op 1 < 4096 → isOkC (decode ctx op rand) = true) ∧
    (∀ (ctx : Chip8Context) (rand op : Nat), bit_i op 0 = 0xD →
      ctx.i + (op &&& 0xF) ≤ 4096 → isOkC (decode ctx op rand) = true) ∧
    isErrC (runStep (runStep (runStep (runStep (.ok (mkContext oobProg)) 0) 0) 0) 0) = true := by
  refine ⟨?_, ?_, ?_, ?_, by decide⟩
  · intro ctx rand op h0 h1 hi
    simp only [decode, h0, h1]
    rw [if_pos (show ctx.i < 4096 by omega), if_pos (show ctx.i + 1 < 4096 by omega),
      if_pos hi]
    rfl
  · intro ctx rand op h0 h1 hi
    simp only [decode, h0, h1]
    obtain ⟨m, hm⟩ := storeRegsAux_ok (List.range (bit_i op 1 + 1)) ctx.register ctx.i
      ctx.memory (fun k hk => by
        have := List.mem_range.1 hk
        omega)
    rw [hm]
    rfl
  · intro ctx rand op h0 h1 hi
    simp only [decode, h0, h1]
    obtain ⟨r, hr⟩ := loadRegsAux_ok (List.range (bit_i op 1 + 1)) ctx.memory ctx.i
      ctx.register (fun k hk => by
        have := List.mem_range.1 hk
        omega)
    rw [hr]
    rfl
  · intro ctx rand op h0 hmem
    have hmod : (ctx.i + (op &&& 0xF)) % 65536 = ctx.i + (op &&& 0xF) :=
      Nat.mod_eq_of_lt (by omega)
    have hreg : get_mem_region ctx.memory ctx.i ((ctx.i + (op &&& 0xF)) % 65536) =
        .ok ((List.range (op &&& 0xF)).map (fun k => ctx.memory (ctx.i + k))) := by
      rw [hmod]
      unfold get_mem_region
      rw [if_pos ⟨by omega, hmem⟩]
      have hlen : ctx.i + (op &&& 0xF) - ctx.i = op &&& 0xF := by omega
      rw [hlen]
    simp only [decode, h0, hreg]
    split <;> rfl

theorem mem_access_unchecked_witness :
    isOkC (decode (mkContext []) 0xF033 0) = true ∧
    isOkC (decode (mkContext []) 0xF355 0) = true ∧
    isOkC (decode (mkContext []) 0xF365 0) = true ∧
    isOkC (decode (mkContext []) 0xD005 0) = true :=
  ⟨mem_access_unchecked.1 (mkContext []) 0 0xF033 (by decide) (by decide) (by decide),
   mem_access_unchecked.2.1 (mkContext []) 0 0xF355 (by decide) (by decide) (by decide),
   mem_access_unchecked.2.2.1 (mkContext []) 0 0xF365 (by decide) (by decide) (by decide),
   mem_access_unchecked.2.2.2.1 (mkContext []) 0 0xD005 (by decide) (by decide)⟩

end Chip8
